import Mathlib

/-!
Shallow embedding of the mesh-ingestion, frame-rendering and camera code of
`src/main.rs` (a minimal deferred renderer).  Pure text processing is embedded
over `List Char` (one list per input line, mirroring Rust `&str` operations),
rational numbers stand for the parsed `f32` coordinate values (the decimal
value a literal denotes; float rounding is not modelled, and none of the
properties below depend on it), and `Nat` stands for `usize`.  Fallible code
(Rust panics) is embedded as `Option`, `none` marking a panic.
-/

/-- Model of Rust `str::split` with a one-character pattern, on the character
list of the string: `"a  b".split(" ")` yields `["a", "", "b"]`, and the empty
string yields `[""]`. -/
def splitListOn (c : Char) : List Char → List (List Char)
  | [] => [[]]
  | a :: rest =>
    match splitListOn c rest with
    | [] => [[]]
    | h :: t => if a = c then [] :: h :: t else (a :: h) :: t

/-- Model of Rust `str::split_once` with a one-character pattern: `none` when
the character does not occur, otherwise the pieces before and after its first
occurrence. -/
def splitOnceList (c : Char) : List Char → Option (List Char × List Char)
  | [] => none
  | a :: rest =>
    if a = c then some ([], rest)
    else (splitOnceList c rest).map (fun p => (a :: p.1, p.2))

/-- Numeric value of a decimal digit character. -/
def digitVal (c : Char) : Nat := c.toNat - Char.toNat '0'

/-- Accumulating decimal-digit reader: fails on any non-digit character. -/
def parseDigitsAux (acc : Nat) : List Char → Option Nat
  | [] => some acc
  | c :: rest => if c.isDigit then parseDigitsAux (acc * 10 + digitVal c) rest else none

/-- Nonempty all-digit string to `Nat`; `none` otherwise. -/
def parseDigits : List Char → Option Nat
  | [] => none
  | l => parseDigitsAux 0 l

/-- Model of Rust `str::parse::<usize>()`: an optional leading `+` sign
followed by at least one decimal digit.  (Overflow of the 64-bit range is not
modelled; the embedding's numbers are unbounded.) -/
def parseNatStr (l : List Char) : Option Nat :=
  match l with
  | '+' :: rest => parseDigits rest
  | _ => parseDigits l

/-- Unsigned decimal-fraction reader: `digits`, `digits.digits`, `digits.` or
`.digits`, as accepted by Rust `str::parse::<f32>()` (exponent and the
`inf`/`NaN` forms are not modelled; the value is the exact decimal). -/
def parseUnsignedDec (l : List Char) : Option ℚ :=
  match splitOnceList '.' l with
  | none => (parseDigits l).map (fun n => (n : ℚ))
  | some (ip, fp) =>
    match ip, fp with
    | [], [] => none
    | [], _ => (parseDigits fp).map (fun f => (f : ℚ) / 10 ^ fp.length)
    | _, [] => (parseDigits ip).map (fun n => (n : ℚ))
    | _, _ =>
      match parseDigits ip, parseDigits fp with
      | some n, some f => some ((n : ℚ) + (f : ℚ) / 10 ^ fp.length)
      | _, _ => none

/-- Model of Rust `str::parse::<f32>()` on the claim-relevant decimal forms:
optional sign, then an unsigned decimal fraction. -/
def parseF32 (l : List Char) : Option ℚ :=
  match l with
  | '-' :: rest => (parseUnsignedDec rest).map (fun q => -q)
  | '+' :: rest => parseUnsignedDec rest
  | _ => parseUnsignedDec l

/-- Embedding of `glam::Vec3A` for the parsed positions, with exact rational
components. -/
structure Vec3Q where
  x : ℚ
  y : ℚ
  z : ℚ
deriving DecidableEq, Repr

/-- `Vec3A::ZERO`. -/
def Vec3Q.zero : Vec3Q := ⟨0, 0, 0⟩

/-- Component write `v[i] = a` of `glam::Vec3A`: defined for `i < 3` and a
panic (`none`) otherwise, as glam's `Index` implementation panics. -/
def Vec3Q.setIdx (v : Vec3Q) : Nat → ℚ → Option Vec3Q
  | 0, a => some { v with x := a }
  | 1, a => some { v with y := a }
  | 2, a => some { v with z := a }
  | _ + 3, _ => none

/-- The `v`/`vn` component loop of `parse_obj_file`:
`for (i, x) in rest.split(" ").enumerate() { if let Ok(x) = x.parse() { v[i] = x } }`.
The index counts every split piece; a piece that fails to parse leaves the
component untouched; a parsed piece at index 3 or beyond panics. -/
def parseVComponents (v : Vec3Q) (i : Nat) : List (List Char) → Option Vec3Q
  | [] => some v
  | s :: rest =>
    match parseF32 s with
    | some q => (v.setIdx i q).bind (fun v2 => parseVComponents v2 (i + 1) rest)
    | none => parseVComponents v (i + 1) rest

/-- The face-operand loop of `parse_obj_file`: an operand contributes an index
only when it contains a `/` and the part before the first `/` parses as an
unsigned integer; the parsed 1-based index is converted by `v_idx - 1`, which
on `v_idx = 0` underflows `usize` (a panic in debug builds, modelled as
`none`). -/
def resolveFaceOperands : List (List Char) → Option (List Nat)
  | [] => some []
  | val :: rest =>
    match splitOnceList '/' val with
    | none => resolveFaceOperands rest
    | some (vs, _) =>
      match parseNatStr vs with
      | none => resolveFaceOperands rest
      | some 0 => none
      | some (k + 1) => (resolveFaceOperands rest).map (fun l => k :: l)

/-- Parser state of `parse_obj_file`: the three growing lists `vertices`,
`normals`, `indices`. -/
structure PState where
  vertices : List Vec3Q
  normals : List Vec3Q
  indices : List Nat
deriving DecidableEq, Repr

/-- The empty initial parser state. -/
def initPState : PState := ⟨[], [], []⟩

/-- One iteration of the line loop of `parse_obj_file`: split the line at the
first space (no space: the line is ignored), then dispatch on the prefix
`"v"` / `"vn"` / `"f"` (anything else is ignored).  A face whose resolved
operand count is 3 extends `indices` with it; a count of 4 appends the two
triangles `[a,b,c]` and `[c,d,a]`; any other count only logs.  `none` is a
panic. -/
def processLine (s : PState) (line : List Char) : Option PState :=
  match splitOnceList ' ' line with
  | none => some s
  | some (pre, rest) =>
    if pre = "v".data then
      (parseVComponents Vec3Q.zero 0 (splitListOn ' ' rest)).map
        (fun v => { s with vertices := s.vertices ++ [v] })
    else if pre = "vn".data then
      (parseVComponents Vec3Q.zero 0 (splitListOn ' ' rest)).map
        (fun v => { s with normals := s.normals ++ [v] })
    else if pre = "f".data then
      match resolveFaceOperands (splitListOn ' ' rest) with
      | none => none
      | some idxs =>
        match idxs with
        | [a, b, c] => some { s with indices := s.indices ++ [a, b, c] }
        | [a, b, c, d] => some { s with indices := s.indices ++ [a, b, c, c, d, a] }
        | _ => some s
    else some s

/-- The `while let Some(Ok(line)) = lines.next()` loop: a line that fails to
read (`none` entry) ends the loop, keeping the state accumulated so far. -/
def runLines (s : PState) : List (Option (List Char)) → Option PState
  | [] => some s
  | none :: _ => some s
  | some l :: rest =>
    match processLine s l with
    | none => none
    | some s2 => runLines s2 rest

/-- Host-memory mesh: positions plus face indices, as in the source. -/
structure CpuMesh where
  vertices : List Vec3Q
  indices : List Nat
deriving DecidableEq, Repr

/-- `parse_obj_file`: the outer `Option` of the argument models whether the
file could be opened (`none` = `File::open` failed, in which case the empty
mesh is returned); each line is `none` when reading it fails.  The result is
`none` exactly when the parse panics.  The `normals` list is parsed but
dropped, as in the source. -/
def parse_obj_file (file : Option (List (Option (List Char)))) : Option CpuMesh :=
  match file with
  | none => some ⟨[], []⟩
  | some ls => (runLines initPState ls).map (fun s => ⟨s.vertices, s.indices⟩)

/-- The lines of a fully readable text file. -/
def objLines (ls : List String) : List (Option (List Char)) :=
  ls.map (fun s => some s.data)

/-- `parse_obj_file` on a readable text file given as its list of lines. -/
def parseObjLines (ls : List String) : Option CpuMesh :=
  parse_obj_file (some (objLines ls))

/-- Vector subtraction of `glam::Vec3A` (exact on the rational embedding). -/
def Vec3Q.sub (a b : Vec3Q) : Vec3Q := ⟨a.x - b.x, a.y - b.y, a.z - b.z⟩

/-- `Vec3A::cross` (exact on the rational embedding). -/
def Vec3Q.cross (a b : Vec3Q) : Vec3Q :=
  ⟨a.y * b.z - a.z * b.y, a.z * b.x - a.x * b.z, a.x * b.y - a.y * b.x⟩

/-- A 3-vector of real components, for the computed (irrational) normals. -/
structure Vec3R where
  x : ℝ
  y : ℝ
  z : ℝ

/-- `Vec3A::normalize`: the vector divided by its Euclidean length (glam
computes `self * length().recip()`).  In exact real arithmetic the zero vector
maps to zero (glam would produce non-finite components there; no claim below
depends on the degenerate case). -/
noncomputable def normalizeR (v : Vec3Q) : Vec3R :=
  ⟨(v.x : ℝ) / Real.sqrt ((v.x ^ 2 + v.y ^ 2 + v.z ^ 2 : ℚ) : ℝ),
   (v.y : ℝ) / Real.sqrt ((v.x ^ 2 + v.y ^ 2 + v.z ^ 2 : ℚ) : ℝ),
   (v.z : ℝ) / Real.sqrt ((v.x ^ 2 + v.y ^ 2 + v.z ^ 2 : ℚ) : ℝ)⟩

/-- The face normal of `turn_mesh_into_pure_vertex_list`:
`(v1 - v0).cross(v2 - v0).normalize()`. -/
noncomputable def faceNormal (v0 v1 v2 : Vec3Q) : Vec3R :=
  normalizeR ((v1.sub v0).cross (v2.sub v0))

/-- The flat vertex record: position plus computed normal. -/
structure Vertex where
  pos : Vec3Q
  normal : Vec3R

/-- `slice::chunks_exact(3)`: the complete 3-chunks of the list, the trailing
remainder (1 or 2 elements) dropped. -/
def chunksExact3 : List Nat → List (Nat × Nat × Nat)
  | a :: b :: c :: rest => (a, b, c) :: chunksExact3 rest
  | _ => []

/-- The triangle loop of `turn_mesh_into_pure_vertex_list`: for each chunk,
look the three positions up (an out-of-range index is a panic, `none`),
compute the shared face normal, and push the three vertices. -/
noncomputable def flattenChunks (verts : List Vec3Q) :
    List (Nat × Nat × Nat) → Option (List Vertex)
  | [] => some []
  | (i0, i1, i2) :: rest =>
    (verts.get? i0).bind fun v0 =>
      (verts.get? i1).bind fun v1 =>
        (verts.get? i2).bind fun v2 =>
          (flattenChunks verts rest).map
            (fun tail =>
              ⟨v0, faceNormal v0 v1 v2⟩ :: ⟨v1, faceNormal v0 v1 v2⟩ ::
                ⟨v2, faceNormal v0 v1 v2⟩ :: tail)

/-- `turn_mesh_into_pure_vertex_list`: expand the indexed mesh into the flat
per-triangle vertex list; `none` is a panic (an out-of-range index). -/
noncomputable def turn_mesh_into_pure_vertex_list (mesh : CpuMesh) : Option (List Vertex) :=
  flattenChunks mesh.vertices (chunksExact3 mesh.indices)

/-- The device operations `State::render` can issue, in the order the source
issues them; `submit` returns a sync point identifier and `waitFor` blocks on
one with the given timeout (`!0u64`).  `writeBuffer` stands for any CPU write
into a device buffer (the write path of the resource manager); `render` never
performs one. -/
inductive GpuOp
  | acquireFrame
  | encoderStart
  | initTexture
  | beginRenderPass (name : String)
  | withPipeline (name : String)
  | bindVertex (slot : Nat) (buf : String)
  | draw (first count baseInstance instCount : Nat)
  | present
  | submit (sp : Nat)
  | waitFor (sp : Nat) (timeout : Nat)
  | writeBuffer (buf : String)
deriving DecidableEq, Repr

/-- The sequence of device calls one `State::render` invocation performs, read
off the straight-line source: acquire the frame, start the encoder, init the
frame texture, record the "light" pass (bind the light pipeline, bind the
screen-quad vertex buffer, draw 6 vertices), present, submit (receiving sync
point 0 of this frame), and wait on that sync point with timeout `!0u64`
before returning. -/
def render_trace : List GpuOp :=
  [GpuOp.acquireFrame, GpuOp.encoderStart, GpuOp.initTexture,
   GpuOp.beginRenderPass "light", GpuOp.withPipeline "light",
   GpuOp.bindVertex 0 "screen quad buf", GpuOp.draw 0 6 0 1,
   GpuOp.present, GpuOp.submit 0, GpuOp.waitFor 0 (2 ^ 64 - 1)]

/-- Embedding of `glam::Quat` with real components. -/
structure QuatR where
  x : ℝ
  y : ℝ
  z : ℝ
  w : ℝ

/-- `Quat::from_axis_angle`: `(axis * sin(angle/2), cos(angle/2))`. -/
noncomputable def quat_from_axis_angle (a : Fin 3 → ℝ) (angle : ℝ) : QuatR :=
  ⟨a 0 * Real.sin (angle / 2), a 1 * Real.sin (angle / 2), a 2 * Real.sin (angle / 2),
   Real.cos (angle / 2)⟩

/-- Hamilton product, as `glam::Quat`'s `Mul` implements it. -/
def quat_mul (a b : QuatR) : QuatR :=
  ⟨a.w * b.x + a.x * b.w + a.y * b.z - a.z * b.y,
   a.w * b.y - a.x * b.z + a.y * b.w + a.z * b.x,
   a.w * b.z + a.x * b.y - a.y * b.x + a.z * b.w,
   a.w * b.w - a.x * b.x - a.y * b.y - a.z * b.z⟩

/-- The rotation matrix of a (unit) quaternion, as `glam::Mat3::from_quat`
lays it out (here as a row-indexed matrix acting on column vectors; glam's
`x_axis`, `y_axis`, `z_axis` are its columns). -/
def mat3_from_quat (q : QuatR) : Matrix (Fin 3) (Fin 3) ℝ :=
  !![1 - 2 * (q.y ^ 2 + q.z ^ 2), 2 * (q.x * q.y - q.w * q.z), 2 * (q.x * q.z + q.w * q.y);
     2 * (q.x * q.y + q.w * q.z), 1 - 2 * (q.x ^ 2 + q.z ^ 2), 2 * (q.y * q.z - q.w * q.x);
     2 * (q.x * q.z - q.w * q.y), 2 * (q.y * q.z + q.w * q.x), 1 - 2 * (q.x ^ 2 + q.y ^ 2)]

/-- An affine 3-space transform: the value of a `glam::Mat4` whose last row is
`(0,0,0,1)`, split into its linear 3-by-3 block and its translation column.
Every matrix built by `Camera::view` has this shape. -/
structure Affine3 where
  linear : Matrix (Fin 3) (Fin 3) ℝ
  translation : Fin 3 → ℝ

/-- `Mat4::from_scale_rotation_translation(Vec3A::ONE, rot, pos)`: linear
block the rotation matrix of `rot`, translation column `pos`. -/
def from_rotation_translation (q : QuatR) (pos : Fin 3 → ℝ) : Affine3 :=
  ⟨mat3_from_quat q, pos⟩

/-- `Mat4::inverse` on an affine transform: in exact arithmetic the inverse of
`x ↦ A x + t` is `x ↦ A⁻¹ x - A⁻¹ t` (glam's cofactor inverse computes exactly
this whenever the determinant is nonzero, as it is for every view transform
built here). -/
noncomputable def affine_inverse (m : Affine3) : Affine3 :=
  ⟨m.linear⁻¹, -(m.linear⁻¹.mulVec m.translation)⟩

/-- The camera state of the source: position, yaw, pitch, field of view,
aspect ratio. -/
structure Camera where
  pos : Fin 3 → ℝ
  yaw : ℝ
  pitch : ℝ
  fov_rad : ℝ
  aspect : ℝ

/-- `Camera::view`: compose the pitch rotation about `Vec3::X` and the yaw
rotation about `Vec3::Y` as `rot_y * rot_x`, place at `pos`, and invert. -/
noncomputable def Camera.view (c : Camera) : Affine3 :=
  affine_inverse
    (from_rotation_translation
      (quat_mul (quat_from_axis_angle ![0, 1, 0] c.yaw)
        (quat_from_axis_angle ![1, 0, 0] c.pitch))
      c.pos)

/-- `Camera::default_from_aspect`: origin, zero yaw and pitch, `TAU/4` field
of view. -/
noncomputable def Camera.default_from_aspect (aspect : ℝ) : Camera :=
  ⟨![0, 0, 0], 0, 0, 2 * Real.pi / 4, aspect⟩

/-- `Camera::right_forward_up`: extract the rotation component of the view
matrix (`to_scale_rotation_translation().1`, which at the unit scale of every
view transform here is the rotation represented by the linear block), invert
it (`Quat::inverse`, the conjugate, whose action is the transpose of the
block), and apply it to `Vec3A::X`, `-Vec3A::Z` and `Vec3A::Y`. -/
noncomputable def Camera.right_forward_up (c : Camera) :
    (Fin 3 → ℝ) × (Fin 3 → ℝ) × (Fin 3 → ℝ) :=
  ((c.view).linear.transpose.mulVec ![1, 0, 0],
   (c.view).linear.transpose.mulVec ![0, 0, -1],
   (c.view).linear.transpose.mulVec ![0, 1, 0])

/-- Euclidean dot product on the 3-vectors used by the camera model. -/
def dot3 (u v : Fin 3 → ℝ) : ℝ := u 0 * v 0 + u 1 * v 1 + u 2 * v 2

/-- C1 counterexample: on the spec's end-to-end input
`"v 0 0 0\nv 1 0 0\nv 0 1 0\nf 1 2 3\n"` the parser produces three positions
but an empty index list — not the one triangle `[0, 1, 2]` the claim states —
because the face operands `1`, `2`, `3` carry no slash and are skipped. -/
theorem C1_no_slash_counterexample :
    (parseObjLines ["v 0 0 0", "v 1 0 0", "v 0 1 0", "f 1 2 3"]).map CpuMesh.indices
        = some [] ∧
      (some [] : Option (List Nat)) ≠ some [0, 1, 2] := by
  decide

/-- C1 amended: a face operand resolves to a position index only when it
contains a slash-separated secondary index (whose value is ignored); operands
without a slash are skipped.  The spec's input therefore yields 3 positions
and zero triangles, while the same face written `f 1/1 2/1 3/1` (or with any
other secondary values, here `f 1/9 2/765 3/0`) yields 3 positions and exactly
one triangle `[0, 1, 2]`. -/
theorem C1_face_resolution_amended :
    parseObjLines ["v 0 0 0", "v 1 0 0", "v 0 1 0", "f 1 2 3"]
        = some ⟨[⟨0, 0, 0⟩, ⟨1, 0, 0⟩, ⟨0, 1, 0⟩], []⟩ ∧
      parseObjLines ["v 0 0 0", "v 1 0 0", "v 0 1 0", "f 1/1 2/1 3/1"]
        = some ⟨[⟨0, 0, 0⟩, ⟨1, 0, 0⟩, ⟨0, 1, 0⟩], [0, 1, 2]⟩ ∧
      parseObjLines ["v 0 0 0", "v 1 0 0", "v 0 1 0", "f 1/9 2/765 3/0"]
        = some ⟨[⟨0, 0, 0⟩, ⟨1, 0, 0⟩, ⟨0, 1, 0⟩], [0, 1, 2]⟩ := by
  refine ⟨by decide, by decide, by decide⟩

/-- C6: when the mesh source file cannot be opened (`File::open` fails), and
likewise when not a single line of it can be read, `parse_obj_file` returns
the empty `CpuMesh` — zero positions, zero faces — and reports no error. -/
theorem C6_unreadable_file_empty_mesh :
    parse_obj_file none = some ⟨[], []⟩ ∧
      ∀ rest : List (Option (List Char)),
        parse_obj_file (some (none :: rest)) = some ⟨[], []⟩ := by
  exact ⟨rfl, fun _ => rfl⟩

/-- C10: the syntactically well-formed line `f 0/1 1/1 2/1` makes the parser
subtract 1 from the unsigned index 0; the underflow panics (debug builds),
modelled as `none` — the face is not dropped and parsing does not continue. -/
theorem C10_zero_index_panics :
    parseObjLines ["v 0 0 0", "v 1 0 0", "v 0 1 0", "f 0/1 1/1 2/1"] = none ∧
      parseObjLines ["f 0/1 1/1 2/1", "v 5 5 5"] = none := by
  decide

/-- C7: in the device-call sequence of one `State::render` invocation, every
submission is immediately followed by a wait on the sync point it returned,
with the unbounded timeout `!0u64`, and these are the final two calls before
the function returns; no CPU buffer write occurs anywhere in the sequence (in
particular not between the submission and its wait). -/
theorem C7_submit_then_wait :
    (∀ k sp, render_trace.get? k = some (GpuOp.submit sp) →
        render_trace.get? (k + 1) = some (GpuOp.waitFor sp (2 ^ 64 - 1)) ∧
          k + 2 = render_trace.length) ∧
      ∀ k buf, render_trace.get? k ≠ some (GpuOp.writeBuffer buf) := by
  constructor
  · intro k sp h
    match k, h with
    | 8, h =>
      have : sp = 0 := by
        have h8 : render_trace.get? 8 = some (GpuOp.submit 0) := rfl
        rw [h8] at h
        cases h
        rfl
      subst this
      exact ⟨rfl, rfl⟩
    | 0, h => cases h
    | 1, h => cases h
    | 2, h => cases h
    | 3, h => cases h
    | 4, h => cases h
    | 5, h => cases h
    | 6, h => cases h
    | 7, h => cases h
    | 9, h => cases h
    | n + 10, h => cases h
  · intro k buf
    match k with
    | 0 => intro h; cases h
    | 1 => intro h; cases h
    | 2 => intro h; cases h
    | 3 => intro h; cases h
    | 4 => intro h; cases h
    | 5 => intro h; cases h
    | 6 => intro h; cases h
    | 7 => intro h; cases h
    | 8 => intro h; cases h
    | 9 => intro h; cases h
    | n + 10 => intro h; cases h

/-- C7 witness: the wait on sync point 0 with timeout `2^64 - 1` is the call
right after the submission at position 8, and closes the call sequence. -/
theorem C7_submit_then_wait_witness :
    render_trace.get? (8 + 1) = some (GpuOp.waitFor 0 (2 ^ 64 - 1)) ∧
      8 + 2 = render_trace.length :=
  C7_submit_then_wait.1 8 0 rfl

theorem chunksExact3_length : ∀ l : List Nat, (chunksExact3 l).length = l.length / 3
  | [] => by simp [chunksExact3]
  | [_] => by simp [chunksExact3]
  | [_, _] => by simp [chunksExact3]
  | _ :: _ :: _ :: rest => by
    simp only [chunksExact3, List.length_cons, chunksExact3_length rest]
    omega

theorem flattenChunks_length (verts : List Vec3Q) :
    ∀ (cs : List (Nat × Nat × Nat)) (out : List Vertex),
      flattenChunks verts cs = some out → out.length = 3 * cs.length
  | [], out, h => by
    simp only [flattenChunks, Option.some.injEq] at h
    subst h
    simp
  | (i0, i1, i2) :: rest, out, h => by
    simp only [flattenChunks, Option.bind_eq_some, Option.map_eq_some'] at h
    obtain ⟨v0, _, v1, _, v2, _, tail, htail, hout⟩ := h
    subst hout
    have := flattenChunks_length verts rest tail htail
    simp [this]
    ring

theorem flattenChunks_total (verts : List Vec3Q) :
    ∀ cs : List (Nat × Nat × Nat),
      (∀ c ∈ cs, c.1 < verts.length ∧ c.2.1 < verts.length ∧ c.2.2 < verts.length) →
      ∃ out, flattenChunks verts cs = some out
  | [], _ => ⟨[], rfl⟩
  | (i0, i1, i2) :: rest, h => by
    obtain ⟨h0, h1, h2⟩ := h (i0, i1, i2) (List.mem_cons_self _ _)
    obtain ⟨tail, htail⟩ :=
      flattenChunks_total verts rest (fun c hc => h c (List.mem_cons_of_mem _ hc))
    have key : flattenChunks verts ((i0, i1, i2) :: rest) =
        some (⟨verts.get ⟨i0, h0⟩,
            faceNormal (verts.get ⟨i0, h0⟩) (verts.get ⟨i1, h1⟩) (verts.get ⟨i2, h2⟩)⟩ ::
          ⟨verts.get ⟨i1, h1⟩,
            faceNormal (verts.get ⟨i0, h0⟩) (verts.get ⟨i1, h1⟩) (verts.get ⟨i2, h2⟩)⟩ ::
          ⟨verts.get ⟨i2, h2⟩,
            faceNormal (verts.get ⟨i0, h0⟩) (verts.get ⟨i1, h1⟩) (verts.get ⟨i2, h2⟩)⟩ :: tail) := by
      simp only [flattenChunks]
      rw [List.get?_eq_get h0, List.get?_eq_get h1, List.get?_eq_get h2, htail]
      rfl
    exact ⟨_, key⟩

/-- C2: a face line whose operands resolve to exactly the four indices
`a b c d` appends exactly the two triangles `(a,b,c)` and `(c,d,a)`, in that
order, to the index list of the parser state; flattening those six indices
(over any position list that makes them in range) emits exactly 6 vertices. -/
theorem C2_quad_triangulation (s : PState) (line r : List Char) (a b c d : Nat)
    (h1 : splitOnceList ' ' line = some ("f".data, r))
    (h2 : resolveFaceOperands (splitListOn ' ' r) = some [a, b, c, d]) :
    processLine s line = some { s with indices := s.indices ++ [a, b, c, c, d, a] } ∧
      ∀ verts : List Vec3Q,
        a < verts.length → b < verts.length → c < verts.length → d < verts.length →
        ∃ vs, turn_mesh_into_pure_vertex_list ⟨verts, [a, b, c, c, d, a]⟩ = some vs ∧
          vs.length = 6 := by
  constructor
  · simp only [processLine, h1]
    rw [if_neg (by decide), if_neg (by decide), if_pos trivial, h2]
  · intro verts ha hb hc hd
    have hch : chunksExact3 [a, b, c, c, d, a] = [(a, b, c), (c, d, a)] := rfl
    obtain ⟨out, hout⟩ := flattenChunks_total verts [(a, b, c), (c, d, a)] (by
      intro ch hch2
      simp only [List.mem_cons, List.not_mem_nil, or_false] at hch2
      rcases hch2 with h | h <;> subst h <;> exact ⟨by assumption, by assumption, by assumption⟩)
    refine ⟨out, ?_, ?_⟩
    · simpa [turn_mesh_into_pure_vertex_list, hch] using hout
    · have := flattenChunks_length verts [(a, b, c), (c, d, a)] out hout
      simpa using this

/-- C2 witness: the face line `f 1/1 2/1 3/1 4/1` resolves to the operands
`0 1 2 3`, appends `[0, 1, 2, 2, 3, 0]`, and flattens to 6 vertices over four
positions. -/
theorem C2_quad_triangulation_witness :
    processLine initPState ("f 1/1 2/1 3/1 4/1").data
        = some { initPState with indices := [0, 1, 2, 2, 3, 0] } ∧
      ∃ vs, turn_mesh_into_pure_vertex_list
          ⟨[⟨0, 0, 0⟩, ⟨1, 0, 0⟩, ⟨1, 1, 0⟩, ⟨0, 1, 0⟩], [0, 1, 2, 2, 3, 0]⟩ = some vs ∧
        vs.length = 6 := by
  have h := C2_quad_triangulation initPState ("f 1/1 2/1 3/1 4/1").data
    ("1/1 2/1 3/1 4/1").data 0 1 2 3 (by decide) (by decide)
  exact ⟨h.1, h.2 [⟨0, 0, 0⟩, ⟨1, 0, 0⟩, ⟨1, 1, 0⟩, ⟨0, 1, 0⟩]
    (by decide) (by decide) (by decide) (by decide)⟩

/-- C5: a face line whose resolved operand count is neither 3 nor 4 leaves the
parser state unchanged (zero triangles contributed), and the line loop
continues with the remaining lines exactly as if the face line were absent. -/
theorem C5_bad_operand_count_skipped (s : PState) (line r : List Char) (idxs : List Nat)
    (h1 : splitOnceList ' ' line = some ("f".data, r))
    (h2 : resolveFaceOperands (splitListOn ' ' r) = some idxs)
    (h3 : idxs.length ≠ 3) (h4 : idxs.length ≠ 4) :
    processLine s line = some s ∧
      ∀ rest, runLines s (some line :: rest) = runLines s rest := by
  have hstep : processLine s line = some s := by
    simp only [processLine, h1]
    rw [if_neg (by decide), if_neg (by decide), if_pos trivial, h2]
    match idxs, h3, h4 with
    | [], _, _ => rfl
    | [_], _, _ => rfl
    | [_, _], _, _ => rfl
    | [_, _, _], h3, _ => exact absurd rfl h3
    | [_, _, _, _], _, h4 => exact absurd rfl h4
    | _ :: _ :: _ :: _ :: _ :: _, _, _ => rfl
  refine ⟨hstep, fun rest => ?_⟩
  simp only [runLines, hstep]

/-- C5 witness: the two-operand face line `f 1/1 2/1` is dropped and parsing
continues with the following `v` line. -/
theorem C5_bad_operand_count_skipped_witness :
    processLine initPState ("f 1/1 2/1").data = some initPState ∧
      ∀ rest, runLines initPState (some ("f 1/1 2/1").data :: rest)
        = runLines initPState rest :=
  C5_bad_operand_count_skipped initPState ("f 1/1 2/1").data ("1/1 2/1").data [0, 1]
    (by decide) (by decide) (by decide) (by decide)

theorem processLine_indices_mod3 (s : PState) (l : List Char) (s' : PState)
    (h : processLine s l = some s') : s'.indices.length % 3 = s.indices.length % 3 := by
  unfold processLine at h
  split at h
  · simp only [Option.some.injEq] at h
    subst h
    rfl
  · split at h
    · obtain ⟨v, _, hv⟩ := Option.map_eq_some'.mp h
      subst hv
      rfl
    · split at h
      · obtain ⟨v, _, hv⟩ := Option.map_eq_some'.mp h
        subst hv
        rfl
      · split at h
        · split at h
          · cases h
          · split at h
            · simp only [Option.some.injEq] at h
              subst h
              simp [List.length_append]
            · simp only [Option.some.injEq] at h
              subst h
              simp [List.length_append, Nat.add_mod_left]
              omega
            · simp only [Option.some.injEq] at h
              subst h
              rfl
        · simp only [Option.some.injEq] at h
          subst h
          rfl

theorem runLines_indices_mod3 :
    ∀ (ls : List (Option (List Char))) (s s' : PState),
      runLines s ls = some s' → s'.indices.length % 3 = s.indices.length % 3
  | [], s, s', h => by
    simp only [runLines, Option.some.injEq] at h
    subst h
    rfl
  | none :: _, s, s', h => by
    simp only [runLines, Option.some.injEq] at h
    subst h
    rfl
  | some l :: rest, s, s', h => by
    simp only [runLines] at h
    cases hl : processLine s l with
    | none => rw [hl] at h; cases h
    | some s2 =>
      rw [hl] at h
      rw [runLines_indices_mod3 rest s2 s' h]
      exact processLine_indices_mod3 s l s2 hl

/-- Whether a line is a position directive: it splits at a space and its
prefix is `"v"`. -/
def isVLine (l : List Char) : Bool :=
  match splitOnceList ' ' l with
  | some (pre, _) => decide (pre = "v".data)
  | none => false

/-- Number of position directives the line loop reaches: reading stops at the
first unreadable line. -/
def countVLines : List (Option (List Char)) → Nat
  | [] => 0
  | none :: _ => 0
  | some l :: rest => (if isVLine l then 1 else 0) + countVLines rest

/-- The 1-based index values the face handler would parse from the operands:
for each operand with a slash whose prefix parses, the parsed value. -/
def operandValues : List (List Char) → List Nat
  | [] => []
  | val :: rest =>
    match splitOnceList '/' val with
    | none => operandValues rest
    | some (vs, _) =>
      match parseNatStr vs with
      | none => operandValues rest
      | some k => k :: operandValues rest

/-- The 1-based face index values of a line: nonempty only for `f` lines. -/
def faceIndexValues (l : List Char) : List Nat :=
  match splitOnceList ' ' l with
  | some (pre, rest) => if pre = "f".data then operandValues (splitListOn ' ' rest) else []
  | none => []

theorem processLine_vertices_len (s : PState) (l : List Char) (s' : PState)
    (h : processLine s l = some s') :
    s'.vertices.length = s.vertices.length + (if isVLine l then 1 else 0) := by
  unfold processLine at h
  split at h
  case _ heq =>
    simp only [Option.some.injEq] at h
    subst h
    simp [isVLine, heq]
  case _ pre rest heq =>
    split at h
    case _ hpre =>
      obtain ⟨v, _, hv⟩ := Option.map_eq_some'.mp h
      subst hv
      simp [isVLine, heq, hpre, List.length_append]
    case _ hpre =>
      have hnv : isVLine l = false := by simp [isVLine, heq, hpre]
      split at h
      · obtain ⟨v, _, hv⟩ := Option.map_eq_some'.mp h
        subst hv
        simp [hnv]
      · split at h
        · split at h
          · cases h
          · split at h <;>
              (simp only [Option.some.injEq] at h; subst h; simp [hnv])
        · simp only [Option.some.injEq] at h
          subst h
          simp [hnv]

theorem runLines_vertices_len :
    ∀ (ls : List (Option (List Char))) (s s' : PState),
      runLines s ls = some s' → s'.vertices.length = s.vertices.length + countVLines ls
  | [], s, s', h => by
    simp only [runLines, Option.some.injEq] at h
    subst h
    simp [countVLines]
  | none :: rest, s, s', h => by
    simp only [runLines, Option.some.injEq] at h
    subst h
    simp [countVLines]
  | some l :: rest, s, s', h => by
    simp only [runLines] at h
    cases hl : processLine s l with
    | none => rw [hl] at h; cases h
    | some s2 =>
      rw [hl] at h
      have h2 := runLines_vertices_len rest s2 s' h
      have h1 := processLine_vertices_len s l s2 hl
      simp only [countVLines]
      omega

theorem resolveFaceOperands_sub :
    ∀ (vals : List (List Char)) (idxs : List Nat),
      resolveFaceOperands vals = some idxs → ∀ j ∈ idxs, j + 1 ∈ operandValues vals
  | [], idxs, h => by
    simp only [resolveFaceOperands, Option.some.injEq] at h
    subst h
    simp
  | val :: rest, idxs, h => by
    intro j hj
    simp only [resolveFaceOperands] at h
    simp only [operandValues]
    cases hsp : splitOnceList '/' val with
    | none =>
      simp only [hsp] at h ⊢
      exact resolveFaceOperands_sub rest idxs h j hj
    | some p =>
      obtain ⟨vs, uv⟩ := p
      simp only [hsp] at h ⊢
      cases hn : parseNatStr vs with
      | none =>
        simp only [hn] at h ⊢
        exact resolveFaceOperands_sub rest idxs h j hj
      | some k =>
        simp only [hn] at h ⊢
        cases k with
        | zero => cases h
        | succ k2 =>
          obtain ⟨tl, htl, hidxs⟩ := Option.map_eq_some'.mp h
          subst hidxs
          rcases List.mem_cons.mp hj with hje | hjm
          · subst hje
            exact List.mem_cons_self _ _
          · exact List.mem_cons_of_mem _ (resolveFaceOperands_sub rest tl htl j hjm)

theorem processLine_indices_sub (s : PState) (l : List Char) (s' : PState)
    (h : processLine s l = some s') :
    ∀ i ∈ s'.indices, i ∈ s.indices ∨ (i + 1) ∈ faceIndexValues l := by
  unfold processLine at h
  split at h
  case _ heq =>
    simp only [Option.some.injEq] at h
    subst h
    exact fun i hi => Or.inl hi
  case _ pre rest heq =>
    split at h
    case _ hpre =>
      obtain ⟨v, _, hv⟩ := Option.map_eq_some'.mp h
      subst hv
      exact fun i hi => Or.inl hi
    case _ hpre =>
      split at h
      · obtain ⟨v, _, hv⟩ := Option.map_eq_some'.mp h
        subst hv
        exact fun i hi => Or.inl hi
      · split at h
        case _ hprf =>
          have hfv : faceIndexValues l = operandValues (splitListOn ' ' rest) := by
            simp [faceIndexValues, heq, hprf]
          split at h
          case _ hres => cases h
          case _ idxs hres =>
            have hsub : ∀ j ∈ idxs, j + 1 ∈ operandValues (splitListOn ' ' rest) :=
              resolveFaceOperands_sub _ _ hres
            split at h
            case _ a b c =>
              simp only [Option.some.injEq] at h
              subst h
              intro i hi
              rcases List.mem_append.mp hi with hi | hi
              · exact Or.inl hi
              · exact Or.inr (hfv ▸ hsub i hi)
            case _ a b c d =>
              simp only [Option.some.injEq] at h
              subst h
              intro i hi
              rcases List.mem_append.mp hi with hi | hi
              · exact Or.inl hi
              · refine Or.inr (hfv ▸ hsub i ?_)
                simp only [List.mem_cons, List.not_mem_nil, or_false] at hi ⊢
                tauto
            case _ =>
              simp only [Option.some.injEq] at h
              subst h
              exact fun i hi => Or.inl hi
        case _ =>
          simp only [Option.some.injEq] at h
          subst h
          exact fun i hi => Or.inl hi

theorem runLines_indices_sub :
    ∀ (ls : List (Option (List Char))) (s s' : PState),
      runLines s ls = some s' →
      ∀ i ∈ s'.indices,
        i ∈ s.indices ∨ ∃ l, some l ∈ ls ∧ (i + 1) ∈ faceIndexValues l
  | [], s, s', h => by
    simp only [runLines, Option.some.injEq] at h
    subst h
    exact fun i hi => Or.inl hi
  | none :: rest, s, s', h => by
    simp only [runLines, Option.some.injEq] at h
    subst h
    exact fun i hi => Or.inl hi
  | some l :: rest, s, s', h => by
    simp only [runLines] at h
    cases hl : processLine s l with
    | none => rw [hl] at h; cases h
    | some s2 =>
      rw [hl] at h
      intro i hi
      rcases runLines_indices_sub rest s2 s' h i hi with h2 | ⟨l2, hl2, hm⟩
      · rcases processLine_indices_sub s l s2 hl i h2 with h3 | h3
        · exact Or.inl h3
        · exact Or.inr ⟨l, List.mem_cons_self _ _, h3⟩
      · exact Or.inr ⟨l2, List.mem_cons_of_mem _ hl2, hm⟩

/-- C3 counterexample: the syntactically valid `v`/`f` input
`["v 0 0 0", "f 2/1 3/1 4/1"]` parses without error to a mesh with one
position and the 0-based indices `[1, 2, 3]`, which are not all within
`[0, positions.len())`; flattening this mesh panics on the out-of-bounds
lookup. -/
theorem C3_out_of_range_counterexample :
    parseObjLines ["v 0 0 0", "f 2/1 3/1 4/1"] = some ⟨[⟨0, 0, 0⟩], [1, 2, 3]⟩ ∧
      (∃ i ∈ [1, 2, 3], ¬ i < [Vec3Q.mk 0 0 0].length) ∧
      turn_mesh_into_pure_vertex_list ⟨[⟨0, 0, 0⟩], [1, 2, 3]⟩ = none := by
  refine ⟨by decide, by decide, rfl⟩

/-- C3 amended: the parser performs no range check, so the bound holds only
for inputs whose face operands stay within the declared positions: if every
1-based face index value of every line is at most the number of `v` lines,
then every index of the parsed mesh, after the 1-to-0-based conversion, lies
within `[0, positions.len())`. -/
theorem C3_index_bounds_amended (ls : List String) (m : CpuMesh)
    (hp : parseObjLines ls = some m)
    (hv : ∀ l ∈ ls, ∀ k ∈ faceIndexValues l.data, k ≤ countVLines (objLines ls)) :
    ∀ i ∈ m.indices, i < m.vertices.length := by
  intro i hi
  simp only [parseObjLines, parse_obj_file] at hp
  obtain ⟨st, hst, hm⟩ := Option.map_eq_some'.mp hp
  subst hm
  simp only at hi
  rcases runLines_indices_sub (objLines ls) initPState st hst i hi with h0 | ⟨lc, hlc, hk⟩
  · cases h0
  · obtain ⟨l, hl, hld⟩ := List.mem_map.mp hlc
    have hle : i + 1 ≤ countVLines (objLines ls) := by
      have := hv l hl (i + 1)
      apply this
      have : some l.data = some lc := hld
      simp only [Option.some.injEq] at this
      rw [this]
      exact hk
    have hlen := runLines_vertices_len (objLines ls) initPState st hst
    simp only [initPState, List.length_nil, Nat.zero_add] at hlen
    simp only [hlen]
    omega

/-- C3 amended witness: the input `["v 0 0 0", "v 1 0 0", "v 0 1 0",
"f 1/1 2/1 3/1"]` satisfies the index-range side condition, and its parsed
indices `[0, 1, 2]` all lie below the position count 3. -/
theorem C3_index_bounds_amended_witness :
    2 < (CpuMesh.mk [⟨0, 0, 0⟩, ⟨1, 0, 0⟩, ⟨0, 1, 0⟩] [0, 1, 2]).vertices.length :=
  C3_index_bounds_amended ["v 0 0 0", "v 1 0 0", "v 0 1 0", "f 1/1 2/1 3/1"]
    ⟨[⟨0, 0, 0⟩, ⟨1, 0, 0⟩, ⟨0, 1, 0⟩], [0, 1, 2]⟩ (by decide) (by decide) 2 (by decide)

/-- C9 counterexample: the claim's second half fails for an arbitrary
`CpuMesh`: on the mesh with no positions and indices `[0, 0, 0]` the flattener
does not emit `3 * (3 / 3) = 3` vertices — its position lookup panics. -/
theorem C9_flatten_total_counterexample :
    turn_mesh_into_pure_vertex_list ⟨[], [0, 0, 0]⟩ = none ∧
      (none : Option (List Vertex)) ≠ some [] := by
  exact ⟨rfl, by simp⟩

/-- C9 amended: every `CpuMesh` produced by the parser has an index list
whose length is a multiple of 3 (a face appends 3 or 6 indices atomically);
and for any `CpuMesh` whose complete index triples are in range, the
flattener emits exactly `3 * (indices.len() / 3)` vertices, silently ignoring
a trailing partial chunk of 1 or 2 indices.  (A complete triple holding an
out-of-range index panics instead, per the counterexample.) -/
theorem C9_flatten_count_amended :
    (∀ file m, parse_obj_file file = some m → m.indices.length % 3 = 0) ∧
      ∀ m : CpuMesh,
        (∀ c ∈ chunksExact3 m.indices,
          c.1 < m.vertices.length ∧ c.2.1 < m.vertices.length ∧ c.2.2 < m.vertices.length) →
        ∃ vs, turn_mesh_into_pure_vertex_list m = some vs ∧
          vs.length = 3 * (m.indices.length / 3) := by
  constructor
  · intro file m hp
    cases file with
    | none =>
      simp only [parse_obj_file, Option.some.injEq] at hp
      subst hp
      rfl
    | some ls =>
      simp only [parse_obj_file] at hp
      obtain ⟨st, hst, hm⟩ := Option.map_eq_some'.mp hp
      subst hm
      simpa using runLines_indices_mod3 ls initPState st hst
  · intro m hb
    obtain ⟨vs, hvs⟩ := flattenChunks_total m.vertices (chunksExact3 m.indices) hb
    refine ⟨vs, hvs, ?_⟩
    rw [flattenChunks_length m.vertices (chunksExact3 m.indices) vs hvs,
      chunksExact3_length m.indices]

/-- C9 amended witness: parsing `["f 1/1 2/1 3/1"]` yields 3 indices (a
multiple of 3), and the mesh with one position and indices `[0, 0, 0, 7]`
flattens to `3 * (4 / 3) = 3` vertices, the trailing out-of-range index 7
being ignored. -/
theorem C9_flatten_count_amended_witness :
    (CpuMesh.mk [] [0, 1, 2]).indices.length % 3 = 0 ∧
      ∃ vs, turn_mesh_into_pure_vertex_list ⟨[⟨0, 0, 0⟩], [0, 0, 0, 7]⟩ = some vs ∧
        vs.length = 3 * ((CpuMesh.mk [⟨0, 0, 0⟩] [0, 0, 0, 7]).indices.length / 3) := by
  constructor
  · exact C9_flatten_count_amended.1 (some (objLines ["f 1/1 2/1 3/1"]))
      ⟨[], [0, 1, 2]⟩ (by decide)
  · exact C9_flatten_count_amended.2 ⟨[⟨0, 0, 0⟩], [0, 0, 0, 7]⟩ (by decide)

theorem flattenChunks_structure (verts : List Vec3Q) :
    ∀ (cs : List (Nat × Nat × Nat)) (out : List Vertex) (t i0 i1 i2 : Nat) (p0 p1 p2 : Vec3Q),
      flattenChunks verts cs = some out →
      cs.get? t = some (i0, i1, i2) →
      verts.get? i0 = some p0 → verts.get? i1 = some p1 → verts.get? i2 = some p2 →
      (out.drop (3 * t)).take 3 =
        [⟨p0, faceNormal p0 p1 p2⟩, ⟨p1, faceNormal p0 p1 p2⟩, ⟨p2, faceNormal p0 p1 p2⟩]
  | [], _, t, _, _, _, _, _, _, _, hch, _, _, _ => by
    simp at hch
  | (j0, j1, j2) :: rest, out, 0, i0, i1, i2, p0, p1, p2, hflat, hch, h0, h1, h2 => by
    simp only [List.get?_cons_zero, Option.some.injEq, Prod.mk.injEq] at hch
    obtain ⟨e0, e1, e2⟩ := hch
    subst e0; subst e1; subst e2
    simp only [flattenChunks, h0, h1, h2, Option.some_bind] at hflat
    obtain ⟨tail, htail, hout⟩ := Option.map_eq_some'.mp hflat
    subst hout
    rfl
  | (j0, j1, j2) :: rest, out, t + 1, i0, i1, i2, p0, p1, p2, hflat, hch, h0, h1, h2 => by
    simp only [List.get?_cons_succ] at hch
    simp only [flattenChunks] at hflat
    cases e0 : verts.get? j0 with
    | none => rw [e0] at hflat; cases hflat
    | some v0 =>
      rw [e0] at hflat
      cases e1 : verts.get? j1 with
      | none => rw [e1] at hflat; cases hflat
      | some v1 =>
        rw [e1] at hflat
        cases e2 : verts.get? j2 with
        | none => rw [e2] at hflat; cases hflat
        | some v2 =>
          rw [e2] at hflat
          simp only [Option.some_bind] at hflat
          obtain ⟨tail, htail, hout⟩ := Option.map_eq_some'.mp hflat
          subst hout
          have hmul : 3 * (t + 1) = 3 * t + 3 := by ring
          rw [hmul]
          exact flattenChunks_structure verts rest tail t i0 i1 i2 p0 p1 p2 htail hch h0 h1 h2

/-- C4: for the `t`-th complete index triple `(i0, i1, i2)` of a `CpuMesh`
that the flattener processes, the output holds, at positions `3t` to `3t+2`,
exactly three consecutive `Vertex` records carrying `position[i0]`,
`position[i1]`, `position[i2]` in that order, each paired with the single
shared normal `normalize(cross(position[i1] - position[i0],
position[i2] - position[i0]))`; triangle output order follows input order. -/
theorem C4_flatten_triangles (m : CpuMesh) (vs : List Vertex) (t i0 i1 i2 : Nat)
    (p0 p1 p2 : Vec3Q)
    (hm : turn_mesh_into_pure_vertex_list m = some vs)
    (hc : (chunksExact3 m.indices).get? t = some (i0, i1, i2))
    (h0 : m.vertices.get? i0 = some p0)
    (h1 : m.vertices.get? i1 = some p1)
    (h2 : m.vertices.get? i2 = some p2) :
    (vs.drop (3 * t)).take 3 =
      [⟨p0, normalizeR ((p1.sub p0).cross (p2.sub p0))⟩,
       ⟨p1, normalizeR ((p1.sub p0).cross (p2.sub p0))⟩,
       ⟨p2, normalizeR ((p1.sub p0).cross (p2.sub p0))⟩] :=
  flattenChunks_structure m.vertices (chunksExact3 m.indices) vs t i0 i1 i2 p0 p1 p2
    hm hc h0 h1 h2

/-- C4 witness: on the mesh with positions `(0,0,0), (1,0,0), (0,1,0)` and
the single triangle `[0, 1, 2]`, the three flattened vertices carry the three
positions in order, each with the shared normal
`normalize(cross((1,0,0), (0,1,0)))`. -/
theorem C4_flatten_triangles_witness :
    (([⟨⟨0, 0, 0⟩, normalizeR (((Vec3Q.mk 1 0 0).sub ⟨0, 0, 0⟩).cross
          ((Vec3Q.mk 0 1 0).sub ⟨0, 0, 0⟩))⟩,
       ⟨⟨1, 0, 0⟩, normalizeR (((Vec3Q.mk 1 0 0).sub ⟨0, 0, 0⟩).cross
          ((Vec3Q.mk 0 1 0).sub ⟨0, 0, 0⟩))⟩,
       ⟨⟨0, 1, 0⟩, normalizeR (((Vec3Q.mk 1 0 0).sub ⟨0, 0, 0⟩).cross
          ((Vec3Q.mk 0 1 0).sub ⟨0, 0, 0⟩))⟩] : List Vertex).drop (3 * 0)).take 3 =
      [⟨⟨0, 0, 0⟩, normalizeR (((Vec3Q.mk 1 0 0).sub ⟨0, 0, 0⟩).cross
          ((Vec3Q.mk 0 1 0).sub ⟨0, 0, 0⟩))⟩,
       ⟨⟨1, 0, 0⟩, normalizeR (((Vec3Q.mk 1 0 0).sub ⟨0, 0, 0⟩).cross
          ((Vec3Q.mk 0 1 0).sub ⟨0, 0, 0⟩))⟩,
       ⟨⟨0, 1, 0⟩, normalizeR (((Vec3Q.mk 1 0 0).sub ⟨0, 0, 0⟩).cross
          ((Vec3Q.mk 0 1 0).sub ⟨0, 0, 0⟩))⟩] :=
  C4_flatten_triangles ⟨[⟨0, 0, 0⟩, ⟨1, 0, 0⟩, ⟨0, 1, 0⟩], [0, 1, 2]⟩ _ 0 0 1 2
    ⟨0, 0, 0⟩ ⟨1, 0, 0⟩ ⟨0, 1, 0⟩ rfl rfl rfl rfl rfl

/-- The view rotation of the camera: `rot_y * rot_x` as built by
`Camera::view`. -/
noncomputable def camera_rot (c : Camera) : QuatR :=
  quat_mul (quat_from_axis_angle ![0, 1, 0] c.yaw) (quat_from_axis_angle ![1, 0, 0] c.pitch)

theorem camera_rot_eq (c : Camera) :
    camera_rot c =
      ⟨Real.cos (c.yaw / 2) * Real.sin (c.pitch / 2),
       Real.sin (c.yaw / 2) * Real.cos (c.pitch / 2),
       -(Real.sin (c.yaw / 2) * Real.sin (c.pitch / 2)),
       Real.cos (c.yaw / 2) * Real.cos (c.pitch / 2)⟩ := by
  simp only [camera_rot, quat_mul, quat_from_axis_angle, Matrix.cons_val_zero,
    Matrix.cons_val_one, Matrix.head_cons, Matrix.cons_val_two, Matrix.tail_cons,
    QuatR.mk.injEq]
  refine ⟨by ring, by ring, by ring, by ring⟩

theorem camera_rot_norm (c : Camera) :
    (camera_rot c).x ^ 2 + (camera_rot c).y ^ 2 + (camera_rot c).z ^ 2 +
      (camera_rot c).w ^ 2 = 1 := by
  rw [camera_rot_eq]
  simp only
  linear_combination
    (Real.sin (c.yaw / 2) ^ 2 + Real.cos (c.yaw / 2) ^ 2) *
        Real.sin_sq_add_cos_sq (c.pitch / 2) +
      Real.sin_sq_add_cos_sq (c.yaw / 2)

theorem mat3_from_quat_orth (q : QuatR)
    (h : q.x ^ 2 + q.y ^ 2 + q.z ^ 2 + q.w ^ 2 = 1) :
    mat3_from_quat q * (mat3_from_quat q).transpose = 1 := by
  obtain ⟨x, y, z, w⟩ := q
  simp only at h
  have ht : (mat3_from_quat ⟨x, y, z, w⟩).transpose =
      !![1 - 2 * (y ^ 2 + z ^ 2), 2 * (x * y + w * z), 2 * (x * z - w * y);
         2 * (x * y - w * z), 1 - 2 * (x ^ 2 + z ^ 2), 2 * (y * z + w * x);
         2 * (x * z + w * y), 2 * (y * z - w * x), 1 - 2 * (x ^ 2 + y ^ 2)] := by
    ext i j
    fin_cases i <;> fin_cases j <;> rfl
  rw [ht]
  show (!![1 - 2 * (y ^ 2 + z ^ 2), 2 * (x * y - w * z), 2 * (x * z + w * y);
           2 * (x * y + w * z), 1 - 2 * (x ^ 2 + z ^ 2), 2 * (y * z - w * x);
           2 * (x * z - w * y), 2 * (y * z + w * x), 1 - 2 * (x ^ 2 + y ^ 2)] *
      _) = _
  rw [Matrix.mul_fin_three, Matrix.one_fin_three]
  refine congrArg Matrix.of (Matrix.vec3_eq (Matrix.vec3_eq ?_ ?_ ?_)
    (Matrix.vec3_eq ?_ ?_ ?_) (Matrix.vec3_eq ?_ ?_ ?_))
  · linear_combination (4 * (y ^ 2 + z ^ 2)) * h
  · linear_combination (-(4 * x * y)) * h
  · linear_combination (-(4 * x * z)) * h
  · linear_combination (-(4 * x * y)) * h
  · linear_combination (4 * (x ^ 2 + z ^ 2)) * h
  · linear_combination (-(4 * y * z)) * h
  · linear_combination (-(4 * x * z)) * h
  · linear_combination (-(4 * y * z)) * h
  · linear_combination (4 * (x ^ 2 + y ^ 2)) * h

theorem view_linear_transpose (c : Camera) :
    (c.view).linear.transpose = mat3_from_quat (camera_rot c) := by
  have horth := mat3_from_quat_orth (camera_rot c) (camera_rot_norm c)
  have hlin : (c.view).linear = (mat3_from_quat (camera_rot c))⁻¹ := rfl
  rw [hlin, Matrix.inv_eq_right_inv horth, Matrix.transpose_transpose]

theorem right_forward_up_eq (c : Camera) :
    c.right_forward_up =
      ((mat3_from_quat (camera_rot c)).mulVec ![1, 0, 0],
       (mat3_from_quat (camera_rot c)).mulVec ![0, 0, -1],
       (mat3_from_quat (camera_rot c)).mulVec ![0, 1, 0]) := by
  simp only [Camera.right_forward_up, view_linear_transpose]

theorem mat3_col0 (x y z w : ℝ) :
    (mat3_from_quat ⟨x, y, z, w⟩).mulVec ![1, 0, 0] =
      ![1 - 2 * (y ^ 2 + z ^ 2), 2 * (x * y + w * z), 2 * (x * z - w * y)] := by
  funext i
  fin_cases i <;>
    simp [mat3_from_quat, Matrix.mulVec, Matrix.dotProduct, Fin.sum_univ_three]

theorem mat3_col2_neg (x y z w : ℝ) :
    (mat3_from_quat ⟨x, y, z, w⟩).mulVec ![0, 0, -1] =
      ![-(2 * (x * z + w * y)), -(2 * (y * z - w * x)), -(1 - 2 * (x ^ 2 + y ^ 2))] := by
  funext i
  fin_cases i <;>
    simp [mat3_from_quat, Matrix.mulVec, Matrix.dotProduct, Fin.sum_univ_three]

theorem mat3_col1 (x y z w : ℝ) :
    (mat3_from_quat ⟨x, y, z, w⟩).mulVec ![0, 1, 0] =
      ![2 * (x * y - w * z), 1 - 2 * (x ^ 2 + z ^ 2), 2 * (y * z + w * x)] := by
  funext i
  fin_cases i <;>
    simp [mat3_from_quat, Matrix.mulVec, Matrix.dotProduct, Fin.sum_univ_three]

theorem mat3_cols_orth (x y z w : ℝ) (h : x ^ 2 + y ^ 2 + z ^ 2 + w ^ 2 = 1) :
    dot3 ((mat3_from_quat ⟨x, y, z, w⟩).mulVec ![1, 0, 0])
        ((mat3_from_quat ⟨x, y, z, w⟩).mulVec ![0, 0, -1]) = 0 ∧
      dot3 ((mat3_from_quat ⟨x, y, z, w⟩).mulVec ![1, 0, 0])
        ((mat3_from_quat ⟨x, y, z, w⟩).mulVec ![0, 1, 0]) = 0 ∧
      dot3 ((mat3_from_quat ⟨x, y, z, w⟩).mulVec ![0, 0, -1])
        ((mat3_from_quat ⟨x, y, z, w⟩).mulVec ![0, 1, 0]) = 0 := by
  rw [mat3_col0, mat3_col1, mat3_col2_neg]
  refine ⟨?_, ?_, ?_⟩ <;> simp only [dot3, Matrix.cons_val_zero, Matrix.cons_val_one,
    Matrix.head_cons, Matrix.cons_val_two, Matrix.tail_cons]
  · linear_combination (4 * x * z) * h
  · linear_combination (-(4 * x * y)) * h
  · linear_combination (4 * y * z) * h

/-- C8: the camera basis.  At yaw = 0 and pitch = 0 (for any position, field
of view and aspect ratio) `right_forward_up` returns right `(1,0,0)`, forward
`(0,0,-1)` (the `-Z` handedness of the source) and up `(0,1,0)`; and for
arbitrary yaw and pitch the three vectors — obtained by inverting the
rotation component of the view matrix and applying it to the world `X`, `-Z`
and `Y` axes — are exactly mutually orthogonal. -/
theorem C8_camera_basis :
    (∀ pos fov aspect,
        (Camera.mk pos 0 0 fov aspect).right_forward_up
          = (![1, 0, 0], ![0, 0, -1], ![0, 1, 0])) ∧
      ∀ c : Camera,
        dot3 c.right_forward_up.1 c.right_forward_up.2.1 = 0 ∧
          dot3 c.right_forward_up.1 c.right_forward_up.2.2 = 0 ∧
          dot3 c.right_forward_up.2.1 c.right_forward_up.2.2 = 0 := by
  constructor
  · intro pos fov aspect
    rw [right_forward_up_eq]
    have hq : camera_rot (Camera.mk pos 0 0 fov aspect) = ⟨0, 0, 0, 1⟩ := by
      rw [camera_rot_eq]
      norm_num
    rw [hq]
    have hm : mat3_from_quat ⟨0, 0, 0, 1⟩ = (1 : Matrix (Fin 3) (Fin 3) ℝ) := by
      rw [Matrix.one_fin_three]
      simp only [mat3_from_quat]
      norm_num
    rw [hm, Matrix.one_mulVec, Matrix.one_mulVec, Matrix.one_mulVec]
  · intro c
    rw [right_forward_up_eq]
    have h := camera_rot_norm c
    rcases hqe : camera_rot c with ⟨x, y, z, w⟩
    rw [hqe] at h
    simp only at h
    exact mat3_cols_orth x y z w h
